import Mathlib

/-!
Shallow embedding of `src/pico_speed_of_sound.py` (and its caller `src/main.py`),
a MicroPython program for a Raspberry Pi Pico that measures acoustic
time-of-flight:

* `wait_for_falling` busy-polls the microphone pin until it reads low and
  returns `utime.ticks_cpu()` at that moment;
* `measure` runs `repetitions` pulse/time/print rounds
  (`while repetitions > 0: ... repetitions -= 1`), printing
  `utime.ticks_diff(end_time, start_time)` and sleeping `sample_delay_ms`
  after each round;
* `run_speed_of_sound` loops forever: `int(input())` inside a bare
  `try/except` (parse failures and read failures are silently discarded),
  then `measure(repetitions)`.

Hardware interactions (pin reads/writes, tick-counter reads, serial prints,
sleeps) are modelled as a trace of events; the hardware's behaviour (the
tick values returned and the microphone levels observed at each poll) is an
oracle supplied as function arguments.
-/

namespace SpeedOfSound

/-- MicroPython `utime` tick period on 32-bit ports such as the rp2040:
tick values wrap modulo `2 ^ 30` (the docs state `TICKS_MAX = 2 ** 30 - 1`). -/
def TICKS_PERIOD : Nat := 2 ^ 30

/-- Half the tick period, `2 ^ 29`. -/
def HALF_PERIOD : Nat := 2 ^ 29

/-- MicroPython `utime.ticks_diff(ticks1, ticks2)`: the ring difference
`ticks1 - ticks2`, returned as a signed value in
`[-TICKS_PERIOD/2, TICKS_PERIOD/2)`.  The C implementation is
`((end - start + TICKS_PERIOD/2) & (TICKS_PERIOD - 1)) - TICKS_PERIOD/2`;
the mask equals reduction modulo `TICKS_PERIOD`. -/
def ticks_diff (ticks1 ticks2 : Nat) : Int :=
  ((ticks1 : Int) - (ticks2 : Int) + (HALF_PERIOD : Int)) % (TICKS_PERIOD : Int)
    - (HALF_PERIOD : Int)

/-- The true forward distance, modulo the counter period, from counter
reading `startT` to counter reading `endT` (how many ticks elapsed if the
counter ran forward from `startT` and wrapped at most once before showing
`endT`). -/
def forward_distance (endT startT : Nat) : Int :=
  ((endT : Int) - (startT : Int)) % (TICKS_PERIOD : Int)

/-- Python exceptions relevant to `int(input())`. -/
inductive PyErr where
  | valueError : PyErr
  | eofError : PyErr
  deriving DecidableEq, Repr

/-- Result of one `input()` call: a line of text, or a raised exception
(e.g. `EOFError` when the host channel is exhausted or closed). -/
inductive ReadResult where
  | line (s : String) : ReadResult
  | eof : ReadResult
  deriving DecidableEq, Repr

/-- Observable events of the program: hardware side effects, serial
output, sleeps, and host-channel reads. -/
inductive Event where
  | speakerHigh : Event
  | speakerLow : Event
  | pollMic (value : Bool) : Event
  | readTicks (t : Nat) : Event
  | printLine (v : Int) : Event
  | sleepMs (ms : Nat) : Event
  | readLine (r : ReadResult) : Event
  deriving DecidableEq, Repr

/-- `def wait_for_falling(pin): while pin.value(): pass; return ticks_cpu()`.
`mic j` is the pin level observed at the `j`-th poll and `tick j` the value
`ticks_cpu()` would return right after the `j`-th poll; `k` is the index of
the next poll and `fuel` bounds the number of polls we are willing to model
(`none` means the loop is still spinning after `fuel` polls).  On success
it returns the tick value read once the pin has gone low, together with the
trace of hardware events. -/
def wait_for_falling (mic : Nat → Bool) (tick : Nat → Nat) :
    Nat → Nat → Option (Nat × List Event)
  | _, 0 => none
  | k, fuel + 1 =>
    if mic k then
      match wait_for_falling mic tick (k + 1) fuel with
      | none => none
      | some (t, tr) => some (t, Event.pollMic true :: tr)
    else
      some (tick k, [Event.pollMic false, Event.readTicks (tick k)])

/-- The hardware's behaviour during one repetition of `measure`:
`startTick` is the `ticks_cpu()` value read right after `speaker.high()`,
`highPolls` is the number of consecutive high (`true`) microphone reads
before the first low read, and `endTick` is the `ticks_cpu()` value read by
`wait_for_falling` at the moment the low level is observed.  Any microphone
stream on which the poll loop terminates is of this shape
(see `wait_for_falling_returns`). -/
structure RepEnv where
  startTick : Nat
  highPolls : Nat
  endTick : Nat
  deriving DecidableEq, Repr

/-- The event trace of one terminating `wait_for_falling(microphone)` call,
as a function of the repetition environment. -/
def waitTrace (e : RepEnv) : List Event :=
  List.replicate e.highPolls (Event.pollMic true) ++
    [Event.pollMic false, Event.readTicks e.endTick]

/-- The value printed for one repetition:
`ticks_diff(end_time, start_time)`. -/
def measuredValue (e : RepEnv) : Int :=
  ticks_diff e.endTick e.startTick

/-- The event trace of one iteration of the `while repetitions > 0` loop in
`measure`: `speaker.high()`; `start_time = ticks_cpu()`;
`end_time = wait_for_falling(microphone)`; `speaker.low()`;
`print(ticks_diff(end_time, start_time))`; `sleep_ms(sample_delay_ms)`. -/
def repTrace (delay : Nat) (e : RepEnv) : List Event :=
  Event.speakerHigh :: Event.readTicks e.startTick ::
    (waitTrace e ++
      [Event.speakerLow, Event.printLine (measuredValue e), Event.sleepMs delay])

/-- The trace of `n` remaining iterations of the repetition loop, the
`i`-th repetition using environment `envs i`. -/
def measureGo (delay : Nat) (envs : Nat → RepEnv) (i : Nat) : Nat → List Event
  | 0 => []
  | n + 1 => repTrace delay (envs i) ++ measureGo delay envs (i + 1) n

/-- `def measure(repetitions): while repetitions > 0: ... repetitions -= 1`.
The loop body runs `repetitions.toNat` times (zero times when
`repetitions ≤ 0`); `measure_unfold` below shows this agrees with the
source's loop step by step. -/
def measure (delay : Nat) (envs : Nat → RepEnv) (i : Nat) (repetitions : Int) :
    List Event :=
  measureGo delay envs i repetitions.toNat

/-- The serial output payload of an event, if any (`print` is the only
statement writing to the host channel). -/
def printedValue : Event → Option Int
  | Event.printLine v => some v
  | _ => none

/-- The result lines written to the host channel during a trace, in order. -/
def outputs (tr : List Event) : List Int :=
  tr.filterMap printedValue

/-- Python whitespace stripped by `int()` from a string argument
(ASCII subset; Unicode spaces are not modelled). -/
def isPySpace (c : Char) : Bool :=
  c == ' ' || c == '\t' || c == '\n' || c == '\r' ||
    c == Char.ofNat 11 || c == Char.ofNat 12

/-- Digit-sequence parsing for Python `int()`, after the first digit:
single underscores are allowed between digits (`1_0`), but not doubled,
leading, or trailing. -/
def parseDigitsGo (acc : Nat) : List Char → Option Nat
  | [] => some acc
  | '_' :: c :: cs =>
    if c.isDigit then parseDigitsGo (acc * 10 + (c.toNat - 48)) cs else none
  | c :: cs =>
    if c.isDigit then parseDigitsGo (acc * 10 + (c.toNat - 48)) cs else none

/-- A non-empty ASCII digit sequence, possibly with single underscores
between digits, as a natural number. -/
def parseDigits : List Char → Option Nat
  | [] => none
  | c :: cs => if c.isDigit then parseDigitsGo (c.toNat - 48) cs else none

/-- Python `int(s)` for a string `s` in base 10: strip whitespace, accept an
optional sign followed by digits; `none` models a raised `ValueError`. -/
def pyInt (s : String) : Option Int :=
  let cs := ((s.toList.dropWhile isPySpace).reverse.dropWhile isPySpace).reverse
  match cs with
  | '-' :: rest => (parseDigits rest).map (fun n => -(n : Int))
  | '+' :: rest => (parseDigits rest).map (fun n => (n : Int))
  | rest => (parseDigits rest).map (fun n => (n : Int))

/-- `int(input())`: the expression guarded by the `try` in
`run_speed_of_sound`.  A failed read raises `EOFError`; a failed parse
raises `ValueError`. -/
def readAndParse (r : ReadResult) : Except PyErr Int :=
  match r with
  | ReadResult.eof => Except.error PyErr.eofError
  | ReadResult.line s =>
    match pyInt s with
    | none => Except.error PyErr.valueError
    | some n => Except.ok n

/-- One iteration of the endless `while True` loop in `run_speed_of_sound`:
`try: repetitions = int(input()) except: continue; measure(repetitions)`.
The bare `except` catches every exception from the read-and-parse step, so
an error leads straight back to the next read. -/
def loopIter (delay : Nat) (envs : Nat → RepEnv) (r : ReadResult) : List Event :=
  Event.readLine r ::
    match readAndParse r with
    | Except.error _ => []
    | Except.ok n => measure delay envs 0 n

/-- The trace of the endless loop over a finite list of read results,
iteration `j` drawing its per-repetition environments from `envs j`. -/
def runLines (delay : Nat) (envs : Nat → Nat → RepEnv) (j : Nat) :
    List ReadResult → List Event
  | [] => []
  | r :: rs => loopIter delay (envs j) r ++ runLines delay envs (j + 1) rs

/-- The trace of `iters` iterations of the endless loop over a stream of
read results (`inp j` is what the `j`-th `input()` call produces). -/
def runIters (delay : Nat) (envs : Nat → Nat → RepEnv) (inp : Nat → ReadResult)
    (j : Nat) : Nat → List Event
  | 0 => []
  | iters + 1 =>
    loopIter delay (envs j) (inp j) ++ runIters delay envs inp (j + 1) iters

/-- The hardware/configuration state visible to the program: the transmit
(speaker) line level, the receive (microphone) pull-up configuration, the
status-LED PWM duty, and the configured inter-measurement delay. -/
structure DeviceState where
  speakerLevel : Bool
  micPullUp : Bool
  ledDuty : Nat
  delayMs : Nat
  deriving DecidableEq, Repr

/-- Effect of one event on the device state: `speaker.high()` and
`speaker.low()` set the transmit line; nothing else writes hardware
state. -/
def applyEvent (s : DeviceState) : Event → DeviceState
  | Event.speakerHigh => { s with speakerLevel := true }
  | Event.speakerLow => { s with speakerLevel := false }
  | _ => s

/-- Effect of a whole trace on the device state. -/
def applyTrace (s : DeviceState) (tr : List Event) : DeviceState :=
  tr.foldl applyEvent s

/-- A trace in which every emitted result line is immediately followed by a
sleep of `delay` milliseconds, so consecutive emissions are separated by at
least the configured delay. -/
def sleepAfterEachPrint (delay : Nat) (tr : List Event) : Prop :=
  ∀ k v, tr[k]? = some (Event.printLine v) → tr[k + 1]? = some (Event.sleepMs delay)

end SpeedOfSound

namespace SpeedOfSound

/-! ## Fidelity lemmas for the loop embeddings -/

/-- `measure` agrees, step by step, with the source's
`while repetitions > 0: <body>; repetitions -= 1` loop. -/
theorem measure_unfold (delay : Nat) (envs : Nat → RepEnv) (i : Nat) (reps : Int) :
    measure delay envs i reps =
      if 0 < reps then repTrace delay (envs i) ++ measure delay envs (i + 1) (reps - 1)
      else [] := by
  unfold measure
  by_cases h : 0 < reps
  · have ht : reps.toNat = (reps - 1).toNat + 1 := by omega
    rw [ht]
    simp [measureGo, h]
  · have ht : reps.toNat = 0 := by omega
    rw [ht]
    simp [measureGo, h]

/-! ## Helper lemmas about outputs and traces -/

theorem filterMap_printed_replicate_poll (n : Nat) (b : Bool) :
    List.filterMap printedValue (List.replicate n (Event.pollMic b)) = [] := by
  induction n with
  | zero => rfl
  | succ n ih => simp [List.replicate_succ, List.filterMap_cons, printedValue, ih]

theorem foldl_applyEvent_replicate_poll (s : DeviceState) (n : Nat) (b : Bool) :
    List.foldl applyEvent s (List.replicate n (Event.pollMic b)) = s := by
  induction n with
  | zero => rfl
  | succ n ih => simp [List.replicate_succ, List.foldl_cons, applyEvent, ih]

theorem outputs_append (t1 t2 : List Event) :
    outputs (t1 ++ t2) = outputs t1 ++ outputs t2 :=
  List.filterMap_append t1 t2 printedValue

theorem outputs_repTrace (delay : Nat) (e : RepEnv) :
    outputs (repTrace delay e) = [measuredValue e] := by
  simp [outputs, repTrace, waitTrace, List.filterMap_cons, List.filterMap_append,
    printedValue, filterMap_printed_replicate_poll]

theorem measureGo_outputs (delay : Nat) (envs : Nat → RepEnv) (n : Nat) :
    ∀ i, outputs (measureGo delay envs i n) =
      (List.range n).map (fun k => measuredValue (envs (i + k))) := by
  induction n with
  | zero => intro i; rfl
  | succ n ih =>
    intro i
    rw [measureGo, outputs_append, outputs_repTrace, ih (i + 1), List.range_succ_eq_map]
    simp only [List.map_cons, List.map_map, List.singleton_append, Nat.add_zero,
      List.cons.injEq, true_and]
    apply List.map_congr_left
    intro a _
    simp only [Function.comp_apply]
    congr 2
    omega

/-! ## Helper lemmas about `wait_for_falling` -/

theorem wait_spins_forever (mic : Nat → Bool) (tick : Nat → Nat)
    (h : ∀ j, mic j = true) : ∀ fuel k, wait_for_falling mic tick k fuel = none := by
  intro fuel
  induction fuel with
  | zero => intro k; rfl
  | succ fuel ih =>
    intro k
    simp [wait_for_falling, h k, ih (k + 1)]

theorem wait_for_falling_returns (mic : Nat → Bool) (tick : Nat → Nat) :
    ∀ m k extra, (∀ j, j < m → mic (k + j) = true) → mic (k + m) = false →
      wait_for_falling mic tick k (m + 1 + extra) =
        some (tick (k + m),
          List.replicate m (Event.pollMic true) ++
            [Event.pollMic false, Event.readTicks (tick (k + m))]) := by
  intro m
  induction m with
  | zero =>
    intro k extra _ hlow
    simp only [Nat.add_zero] at hlow
    have ht : 0 + 1 + extra = extra + 1 := by omega
    rw [ht]
    simp [wait_for_falling, hlow]
  | succ m ih =>
    intro k extra hhigh hlow
    have hk : mic k = true := by
      have := hhigh 0 (Nat.succ_pos m)
      simpa using this
    have ht : m + 1 + 1 + extra = (m + 1 + extra) + 1 := by omega
    rw [ht]
    have hrec := ih (k + 1) extra
      (fun j hj => by
        have := hhigh (j + 1) (by omega)
        have harith : k + (j + 1) = k + 1 + j := by omega
        rwa [harith] at this)
      (by
        have harith : k + (m + 1) = k + 1 + m := by omega
        rwa [harith] at hlow)
    simp only [wait_for_falling, hk, if_true, hrec]
    have harith : k + 1 + m = k + (m + 1) := by omega
    rw [harith]
    simp [List.replicate_succ]

/-! ## Helper lemmas about the sleep-after-print property -/

theorem sleepAfterEachPrint_append (delay : Nat) (t1 t2 : List Event)
    (h1 : sleepAfterEachPrint delay t1) (h2 : sleepAfterEachPrint delay t2) :
    sleepAfterEachPrint delay (t1 ++ t2) := by
  intro k v hk
  by_cases hlt : k < t1.length
  · rw [List.getElem?_append_left hlt] at hk
    have hnext := h1 k v hk
    have hlt2 : k + 1 < t1.length := by
      rcases Nat.lt_or_ge (k + 1) t1.length with h | h
      · exact h
      · exfalso
        rw [List.getElem?_eq_none h] at hnext
        exact Option.noConfusion hnext
    rw [List.getElem?_append_left hlt2]
    exact hnext
  · push_neg at hlt
    rw [List.getElem?_append_right hlt] at hk
    have hnext := h2 _ v hk
    have h1le : t1.length ≤ k + 1 := Nat.le_succ_of_le hlt
    rw [List.getElem?_append_right h1le]
    have harith : k + 1 - t1.length = k - t1.length + 1 := by omega
    rw [harith]
    exact hnext

theorem sleepAfterEachPrint_of_shape (delay : Nat) (pre : List Event) (v : Int)
    (hpre : ∀ e ∈ pre, printedValue e = none) :
    sleepAfterEachPrint delay (pre ++ [Event.printLine v, Event.sleepMs delay]) := by
  intro k w hk
  rcases Nat.lt_or_ge k pre.length with hlt | hge
  · rw [List.getElem?_append_left hlt] at hk
    obtain ⟨hn, heq⟩ := List.getElem?_eq_some.mp hk
    have hmem := hpre _ (heq ▸ List.getElem_mem hn)
    simp [printedValue] at hmem
  · have hk2 := hk
    rw [List.getElem?_append_right hge] at hk2
    cases hmm : (k - pre.length) with
    | zero =>
      have hle : pre.length ≤ k + 1 := by omega
      rw [List.getElem?_append_right hle]
      have harith : k + 1 - pre.length = 1 := by omega
      rw [harith]
      rfl
    | succ m =>
      rw [hmm] at hk2
      cases m with
      | zero => simp at hk2
      | succ m => simp at hk2

theorem sleepAfterEachPrint_repTrace (delay : Nat) (e : RepEnv) :
    sleepAfterEachPrint delay (repTrace delay e) := by
  have hshape : repTrace delay e =
      (Event.speakerHigh :: Event.readTicks e.startTick ::
        (List.replicate e.highPolls (Event.pollMic true) ++
          [Event.pollMic false, Event.readTicks e.endTick, Event.speakerLow])) ++
        [Event.printLine (measuredValue e), Event.sleepMs delay] := by
    simp [repTrace, waitTrace]
  rw [hshape]
  apply sleepAfterEachPrint_of_shape
  intro x hx
  simp only [List.mem_cons, List.mem_append, List.mem_replicate] at hx
  rcases hx with rfl | rfl | ⟨-, rfl⟩ | rfl | rfl | rfl | hx
  · rfl
  · rfl
  · rfl
  · rfl
  · rfl
  · rfl
  · simp at hx

theorem measureGo_sleepAfter (delay : Nat) (envs : Nat → RepEnv) (n : Nat) :
    ∀ i, sleepAfterEachPrint delay (measureGo delay envs i n) := by
  induction n with
  | zero =>
    intro i k v hk
    simp [measureGo] at hk
  | succ n ih =>
    intro i
    rw [measureGo]
    exact sleepAfterEachPrint_append delay _ _ (sleepAfterEachPrint_repTrace delay (envs i))
      (ih (i + 1))

/-! ## Helper lemmas about the command loop -/

theorem loopIter_error (delay : Nat) (env : Nat → RepEnv) (r : ReadResult) (e : PyErr)
    (h : readAndParse r = Except.error e) :
    loopIter delay env r = [Event.readLine r] := by
  simp [loopIter, h]

/-! ## Helper lemmas about `ticks_diff` -/

theorem ticks_diff_eq_forward (endT startT : Nat)
    (h : forward_distance endT startT < (HALF_PERIOD : Int)) :
    ticks_diff endT startT = forward_distance endT startT := by
  simp only [ticks_diff, forward_distance, TICKS_PERIOD, HALF_PERIOD] at *
  omega

end SpeedOfSound

namespace SpeedOfSound

/-! ## Claim theorems -/

/-- C1: for every non-negative integer `n` received as one input line, the
command loop produces exactly `n` result lines, one per measurement call,
in repetition order, and then returns to reading the next input line. -/
theorem request_n_emits_n_results (delay : Nat) (envs : Nat → Nat → RepEnv) (j : Nat)
    (s : String) (n : Nat) (rest : List ReadResult) (hs : pyInt s = some (n : Int)) :
    (outputs (loopIter delay (envs j) (ReadResult.line s))).length = n ∧
      outputs (loopIter delay (envs j) (ReadResult.line s)) =
        (List.range n).map (fun k => measuredValue (envs j k)) ∧
      runLines delay envs j (ReadResult.line s :: rest) =
        loopIter delay (envs j) (ReadResult.line s) ++ runLines delay envs (j + 1) rest := by
  have hout : outputs (loopIter delay (envs j) (ReadResult.line s)) =
      (List.range n).map (fun k => measuredValue (envs j k)) := by
    have hiter : loopIter delay (envs j) (ReadResult.line s) =
        Event.readLine (ReadResult.line s) :: measure delay (envs j) 0 (n : Int) := by
      simp [loopIter, readAndParse, hs]
    have hcons : outputs (Event.readLine (ReadResult.line s) ::
        measure delay (envs j) 0 (n : Int)) = outputs (measure delay (envs j) 0 (n : Int)) := by
      simp [outputs, List.filterMap_cons, printedValue]
    have ht : ((n : Int)).toNat = n := rfl
    rw [hiter, hcons, measure, ht, measureGo_outputs]
    simp
  refine ⟨?_, hout, rfl⟩
  rw [hout]
  simp

/-- Witness for C1 at the request `"3"`: exactly three result lines. -/
theorem request_n_emits_n_results_witness :
    outputs (loopIter 50 (fun _ => RepEnv.mk 0 0 5) (ReadResult.line "3")) = [5, 5, 5] ∧
      runLines 50 (fun _ _ => RepEnv.mk 0 0 5) 0 [ReadResult.line "3"] =
        loopIter 50 (fun _ => RepEnv.mk 0 0 5) (ReadResult.line "3") ++
          runLines 50 (fun _ _ => RepEnv.mk 0 0 5) 1 [] := by
  have h := request_n_emits_n_results 50 (fun _ _ => RepEnv.mk 0 0 5) 0 "3" 3 []
    (by decide)
  exact ⟨h.2.1.trans (by decide), h.2.2⟩

/-- C2 (amended): the computed elapsed value equals the true forward
distance from `startT` to `endT` modulo the counter period whenever that
distance is below half the period (the computed value is the signed
representative in `[-TICKS_PERIOD/2, TICKS_PERIOD/2)`); in particular
`startT = TICKS_PERIOD - 5`, `endT = 3` yields `8`. -/
theorem ticks_diff_wraparound_safe (endT startT : Nat)
    (_hend : endT < TICKS_PERIOD) (_hstart : startT < TICKS_PERIOD)
    (h : forward_distance endT startT < (HALF_PERIOD : Int)) :
    ticks_diff endT startT = forward_distance endT startT ∧
      ticks_diff 3 (TICKS_PERIOD - 5) = 8 :=
  ⟨ticks_diff_eq_forward endT startT h, by decide⟩

/-- Witness for C2 at the spec's own example `start = W - 5`, `end = 3`. -/
theorem ticks_diff_wraparound_safe_witness :
    ticks_diff 3 (TICKS_PERIOD - 5) = forward_distance 3 (TICKS_PERIOD - 5) ∧
      forward_distance 3 (TICKS_PERIOD - 5) = 8 :=
  ⟨(ticks_diff_wraparound_safe 3 (TICKS_PERIOD - 5) (by decide) (by decide) (by decide)).1,
    by decide⟩

/-- C2 counterexample: for the counter readings `start = 0`,
`end = HALF_PERIOD` the true forward distance is `HALF_PERIOD`, but the
computed elapsed value is `-HALF_PERIOD`, so the claim's universally
quantified equality fails. -/
theorem ticks_diff_not_forward_at_half :
    forward_distance HALF_PERIOD 0 = (HALF_PERIOD : Int) ∧
      ticks_diff HALF_PERIOD 0 = -(HALF_PERIOD : Int) ∧
      ticks_diff HALF_PERIOD 0 ≠ forward_distance HALF_PERIOD 0 := by
  decide

/-- C3 (amended): whenever every repetition's true forward tick distance is
below half the counter period, every value emitted as a result line is
non-negative. -/
theorem emitted_values_nonneg (delay : Nat) (envs : Nat → RepEnv) (i : Nat) (reps : Int)
    (h : ∀ k, forward_distance (envs k).endTick (envs k).startTick < (HALF_PERIOD : Int)) :
    ∀ v ∈ outputs (measure delay envs i reps), 0 ≤ v := by
  intro v hv
  rw [measure, measureGo_outputs] at hv
  simp only [List.mem_map, List.mem_range] at hv
  obtain ⟨k, -, rfl⟩ := hv
  rw [measuredValue, ticks_diff_eq_forward _ _ (h (i + k))]
  exact Int.emod_nonneg _ (by norm_num [TICKS_PERIOD])

/-- Witness for C3 on a two-repetition batch that prints `5` twice. -/
theorem emitted_values_nonneg_witness : (0 : Int) ≤ 5 := by
  have h : ∀ k : Nat, forward_distance ((fun _ : Nat => RepEnv.mk 0 0 5) k).endTick
      ((fun _ : Nat => RepEnv.mk 0 0 5) k).startTick < (HALF_PERIOD : Int) := by
    intro k
    show forward_distance 5 0 < (HALF_PERIOD : Int)
    decide
  exact emitted_values_nonneg 50 (fun _ => RepEnv.mk 0 0 5) 0 2 h 5 (by decide)

/-- C3 counterexample: a measurement with `start = 0`,
`end = HALF_PERIOD` emits the negative value `-HALF_PERIOD`. -/
theorem emitted_value_negative_example :
    outputs (measure 50 (fun _ => RepEnv.mk 0 0 HALF_PERIOD) 0 1) =
        [-(HALF_PERIOD : Int)] ∧
      -(HALF_PERIOD : Int) < 0 := by
  decide

/-- C4: an input line that does not parse as an integer produces zero
result lines and no output at all, and the loop goes on to the next input
line. -/
theorem malformed_line_silently_ignored (delay : Nat) (envs : Nat → Nat → RepEnv)
    (j : Nat) (s : String) (rest : List ReadResult) (hs : pyInt s = none) :
    loopIter delay (envs j) (ReadResult.line s) = [Event.readLine (ReadResult.line s)] ∧
      outputs (loopIter delay (envs j) (ReadResult.line s)) = [] ∧
      runLines delay envs j (ReadResult.line s :: rest) =
        Event.readLine (ReadResult.line s) :: runLines delay envs (j + 1) rest := by
  have h1 : loopIter delay (envs j) (ReadResult.line s) =
      [Event.readLine (ReadResult.line s)] := by
    simp [loopIter, readAndParse, hs]
  refine ⟨h1, by rw [h1]; rfl, ?_⟩
  show loopIter delay (envs j) (ReadResult.line s) ++ runLines delay envs (j + 1) rest = _
  rw [h1]
  rfl

/-- Witness for C4 at the non-integer line `"abc"` and the empty line. -/
theorem malformed_line_silently_ignored_witness :
    loopIter 50 (fun _ => RepEnv.mk 0 0 5) (ReadResult.line "abc") =
        [Event.readLine (ReadResult.line "abc")] ∧
      loopIter 50 (fun _ => RepEnv.mk 0 0 5) (ReadResult.line "") =
        [Event.readLine (ReadResult.line "")] :=
  ⟨(malformed_line_silently_ignored 50 (fun _ _ => RepEnv.mk 0 0 5) 0 "abc" []
      (by decide)).1,
    (malformed_line_silently_ignored 50 (fun _ _ => RepEnv.mk 0 0 5) 0 "" []
      (by decide)).1⟩

/-- C5: the receive-line poll has no timeout: if the line never reads low
the poll never returns, for any amount of fuel; and whenever the line first
reads low at the `m`-th poll, the poll terminates and returns the
tick-counter value read at that moment. -/
theorem poll_no_timeout (mic : Nat → Bool) (tick : Nat → Nat) :
    ((∀ j, mic j = true) → ∀ fuel k, wait_for_falling mic tick k fuel = none) ∧
      (∀ m k extra, (∀ j, j < m → mic (k + j) = true) → mic (k + m) = false →
        wait_for_falling mic tick k (m + 1 + extra) =
          some (tick (k + m),
            List.replicate m (Event.pollMic true) ++
              [Event.pollMic false, Event.readTicks (tick (k + m))])) :=
  ⟨wait_spins_forever mic tick, wait_for_falling_returns mic tick⟩

/-- Witness for C5: an always-high line spins for ever; a line going low at
the third poll returns the tick value read there. -/
theorem poll_no_timeout_witness :
    wait_for_falling (fun _ => true) (fun j => j) 0 5 = none ∧
      wait_for_falling (fun j => decide (j < 2)) (fun j => j) 0 3 =
        some (2, [Event.pollMic true, Event.pollMic true, Event.pollMic false,
          Event.readTicks 2]) :=
  ⟨(poll_no_timeout (fun _ => true) (fun j => j)).1 (fun _ => rfl) 5 0,
    by
      have h := (poll_no_timeout (fun j => decide (j < 2)) (fun j => j)).2 2 0 0
        (fun j hj => decide_eq_true (by omega)) rfl
      simpa using h⟩

/-- C6: in every batch of repetitions, each emitted result line is
immediately followed by a sleep of the configured delay, so consecutive
emissions are never separated by less than the configured delay. -/
theorem emission_gap_at_least_delay (delay : Nat) (envs : Nat → RepEnv) (i : Nat)
    (reps : Int) (_hreps : 2 ≤ reps) :
    sleepAfterEachPrint delay (measure delay envs i reps) :=
  measureGo_sleepAfter delay envs reps.toNat i

/-- Witness for C6 on a two-repetition batch: the event after the print at
index 5 is the 50 ms sleep. -/
theorem emission_gap_at_least_delay_witness :
    (measure 50 (fun _ => RepEnv.mk 0 0 5) 0 2)[6]? = some (Event.sleepMs 50) :=
  emission_gap_at_least_delay 50 (fun _ => RepEnv.mk 0 0 5) 0 2 (by decide) 5 5 (by decide)

/-- C7: a negative repetition count runs the repeat loop zero times: no
result lines, no crash, and the command loop goes on to the next input
line. -/
theorem negative_count_runs_zero_iterations (delay : Nat) (envs : Nat → Nat → RepEnv)
    (j : Nat) (s : String) (n : Int) (rest : List ReadResult)
    (hn : n < 0) (hs : pyInt s = some n) :
    measure delay (envs j) 0 n = [] ∧
      loopIter delay (envs j) (ReadResult.line s) = [Event.readLine (ReadResult.line s)] ∧
      runLines delay envs j (ReadResult.line s :: rest) =
        Event.readLine (ReadResult.line s) :: runLines delay envs (j + 1) rest := by
  have hm : measure delay (envs j) 0 n = [] := by
    unfold measure
    have ht : n.toNat = 0 := by omega
    rw [ht]
    rfl
  have h1 : loopIter delay (envs j) (ReadResult.line s) =
      [Event.readLine (ReadResult.line s)] := by
    simp [loopIter, readAndParse, hs, hm]
  refine ⟨hm, h1, ?_⟩
  show loopIter delay (envs j) (ReadResult.line s) ++ runLines delay envs (j + 1) rest = _
  rw [h1]
  rfl

/-- Witness for C7 at the request `"-1"`. -/
theorem negative_count_runs_zero_iterations_witness :
    measure 50 (fun _ => RepEnv.mk 0 0 5) 0 (-1) = [] ∧
      loopIter 50 (fun _ => RepEnv.mk 0 0 5) (ReadResult.line "-1") =
        [Event.readLine (ReadResult.line "-1")] := by
  have h := negative_count_runs_zero_iterations 50 (fun _ _ => RepEnv.mk 0 0 5) 0 "-1"
    (-1) [] (by decide) (by decide)
  exact ⟨h.1, h.2.1⟩

/-- C8: a single measurement performs exactly the steps
speaker-high, read start ticks, poll until low, read end ticks,
speaker-low, print the difference, sleep — in that order — and its only
effect on the device state is the transmit-line toggle: it finishes with
the transmit line low and the microphone pull-up, LED duty, and delay
configuration unchanged. -/
theorem measurement_order_and_frame (delay : Nat) (e : RepEnv) (s : DeviceState) :
    repTrace delay e =
      Event.speakerHigh :: Event.readTicks e.startTick ::
        (List.replicate e.highPolls (Event.pollMic true) ++
          [Event.pollMic false, Event.readTicks e.endTick, Event.speakerLow,
            Event.printLine (measuredValue e), Event.sleepMs delay]) ∧
      applyTrace s (repTrace delay e) = { s with speakerLevel := false } := by
  constructor
  · simp [repTrace, waitTrace]
  · simp [repTrace, waitTrace, applyTrace, List.foldl_append, applyEvent,
      foldl_applyEvent_replicate_poll]

/-- C9: if the receive line already reads low at the first poll, the wait
returns at once with the tick value read there, and a repetition whose end
tick equals its start tick emits the value `0`. -/
theorem low_at_first_poll_immediate (mic : Nat → Bool) (tick : Nat → Nat) (k : Nat)
    (h : mic k = false) :
    (∀ fuel, wait_for_falling mic tick k (fuel + 1) =
        some (tick k, [Event.pollMic false, Event.readTicks (tick k)])) ∧
      (∀ delay t, outputs (repTrace delay (RepEnv.mk t 0 t)) = [(0 : Int)]) := by
  constructor
  · intro fuel
    simp [wait_for_falling, h]
  · intro delay t
    rw [outputs_repTrace]
    simp only [measuredValue, ticks_diff, TICKS_PERIOD, HALF_PERIOD,
      List.cons.injEq, and_true]
    omega

/-- Witness for C9: a line low from the start returns after a single poll,
and the emitted elapsed value is `0` when the end tick equals the start
tick. -/
theorem low_at_first_poll_immediate_witness :
    wait_for_falling (fun _ => false) (fun j => j + 7) 0 1 =
        some (7, [Event.pollMic false, Event.readTicks 7]) ∧
      outputs (repTrace 50 (RepEnv.mk 7 0 7)) = [(0 : Int)] :=
  ⟨by
    have h := (low_at_first_poll_immediate (fun _ => false) (fun j => j + 7) 0 rfl).1 0
    simpa using h,
    (low_at_first_poll_immediate (fun _ => false) (fun j => j + 7) 0 rfl).2 50 7⟩

/-- C10: every exception from the read-and-parse step is swallowed by the
bare handler: on a stream of failing reads (e.g. exhausted host input) the
loop just keeps reading, for any number of iterations, emitting nothing. -/
theorem read_errors_swallowed (delay : Nat) (envs : Nat → Nat → RepEnv)
    (inp : Nat → ReadResult) (h : ∀ j, ∃ e, readAndParse (inp j) = Except.error e) :
    ∀ iters j, runIters delay envs inp j iters =
        (List.range iters).map (fun k => Event.readLine (inp (j + k))) ∧
      outputs (runIters delay envs inp j iters) = [] := by
  intro iters
  induction iters with
  | zero => intro j; exact ⟨rfl, rfl⟩
  | succ iters ih =>
    intro j
    obtain ⟨e, he⟩ := h j
    have h1 : runIters delay envs inp j (iters + 1) =
        (List.range (iters + 1)).map (fun k => Event.readLine (inp (j + k))) := by
      rw [runIters, loopIter_error delay (envs j) (inp j) e he, (ih (j + 1)).1,
        List.range_succ_eq_map]
      simp only [List.map_cons, List.map_map, List.singleton_append, Nat.add_zero,
        List.cons.injEq, true_and]
      apply List.map_congr_left
      intro a _
      simp only [Function.comp_apply]
      congr 2
      omega
    refine ⟨h1, ?_⟩
    rw [h1]
    simp [outputs, List.filterMap_map, Function.comp, printedValue]

/-- Witness for C10 on a host channel that always raises `EOFError`: three
iterations read three times and emit nothing. -/
theorem read_errors_swallowed_witness :
    runIters 50 (fun _ _ => RepEnv.mk 0 0 5) (fun _ => ReadResult.eof) 0 3 =
      [Event.readLine ReadResult.eof, Event.readLine ReadResult.eof,
        Event.readLine ReadResult.eof] := by
  have h := (read_errors_swallowed 50 (fun _ _ => RepEnv.mk 0 0 5)
    (fun _ => ReadResult.eof) (fun _ => ⟨PyErr.eofError, rfl⟩) 3 0).1
  exact h.trans (by decide)

end SpeedOfSound
